import Mathlib

/-!
# Verification of the ResearchDashboard analytics engine

A shallow embedding of the analytics core of the ResearchDashboard
repository (the `useAdvancedAnalytics` hook in
`src/hooks/useAdvancedAnalytics.js`, and the cohort-retention derivation
in the statistical-charts component), together with theorems checking the
natural-language specification against this embedding.

Modelling conventions:
* JavaScript numbers are modelled as `ℚ`.  `Math.sqrt` is modelled by
  `Rat.sqrt`, which agrees with real square root on perfect rational
  squares (the only place an exact value matters in the properties below).
* A JavaScript division that can produce `NaN`/`Infinity` (denominator
  zero) is additionally modelled by `jdiv : ℚ → ℚ → Option ℚ`, returning
  `none` exactly when the denominator is zero.  A parallel `Option`-valued
  computation threads every division site; proving it returns `some` of
  the plain computation shows no `NaN`/`Infinity` can arise.
* ISO timestamps are modelled as milliseconds since the Unix epoch (`ℤ`),
  with calendar operations (`getFullYear`, `getMonth`, `toDateString`,
  `getDay`, `getHours`) interpreted in UTC via the standard
  days-to-civil-date conversion.
* Records (demographics, pretest responses) are association lists from
  field names to JavaScript values.
-/

/-- JavaScript division: `none` models the `NaN`/`Infinity` produced by a
zero denominator. -/
def jdiv (a b : ℚ) : Option ℚ := if b = 0 then none else some (a / b)

/-- JavaScript `Math.sqrt`: `none` models the `NaN` produced by a negative
argument. -/
def jsqrt (q : ℚ) : Option ℚ := if q < 0 then none else some (Rat.sqrt q)

/-- Boolean `≤` on `ℚ`, the comparator `(a, b) => a - b` of
`Array.prototype.sort` used on numeric arrays. -/
def ratLe (a b : ℚ) : Bool := decide (a ≤ b)

/-- `mean` from the statistics kernel: arithmetic mean, `0` on `[]`
(source: `arr.length ? arr.reduce((a, b) => a + b, 0) / arr.length : 0`). -/
def mean (l : List ℚ) : ℚ := if l = [] then 0 else l.sum / l.length

/-- `mean`, with the division site tracked by `jdiv`. -/
def mean? (l : List ℚ) : Option ℚ := if l = [] then some 0 else jdiv l.sum l.length

/-- `median` from the statistics kernel (source sorts a copy ascending and
averages the two middle values on even length; `0` on `[]`). -/
def median (l : List ℚ) : ℚ :=
  if l = [] then 0 else
    let sorted := l.mergeSort ratLe
    let mid := sorted.length / 2
    if sorted.length % 2 = 1 then sorted.getD mid 0
    else (sorted.getD (mid - 1) 0 + sorted.getD mid 0) / 2

/-- `median`, with the division site tracked by `jdiv`. -/
def median? (l : List ℚ) : Option ℚ :=
  if l = [] then some 0 else
    let sorted := l.mergeSort ratLe
    let mid := sorted.length / 2
    if sorted.length % 2 = 1 then some (sorted.getD mid 0)
    else jdiv (sorted.getD (mid - 1) 0 + sorted.getD mid 0) 2

/-- `standardDeviation` from the statistics kernel: population standard
deviation via `Math.sqrt(mean(squareDiffs))`; `0` on `[]`. -/
def standardDeviation (l : List ℚ) : ℚ :=
  if l = [] then 0 else Rat.sqrt (mean (l.map (fun v => (v - mean l) ^ 2)))

/-- `standardDeviation`, with the square-root site tracked by `jsqrt`. -/
def standardDeviation? (l : List ℚ) : Option ℚ :=
  if l = [] then some 0 else
    (mean? (l.map (fun v => (v - mean l) ^ 2))).bind jsqrt

/-- `percentile(arr, p)` from the statistics kernel: linear-interpolation
percentile on the ascending sort; `0` on `[]`. -/
def percentile (l : List ℚ) (p : ℚ) : ℚ :=
  if l = [] then 0 else
    let sorted := l.mergeSort ratLe
    let index : ℚ := p / 100 * ((sorted.length : ℚ) - 1)
    let lower := ⌊index⌋
    let upper := ⌈index⌉
    if lower = upper then sorted.getD lower.toNat 0
    else sorted.getD lower.toNat 0 * ((upper : ℚ) - index) +
      sorted.getD upper.toNat 0 * (index - (lower : ℚ))

/-- `percentile`, with the division site tracked by `jdiv`. -/
def percentile? (l : List ℚ) (p : ℚ) : Option ℚ :=
  if l = [] then some 0 else
    (jdiv p 100).bind fun q =>
      let sorted := l.mergeSort ratLe
      let index : ℚ := q * ((sorted.length : ℚ) - 1)
      let lower := ⌊index⌋
      let upper := ⌈index⌉
      if lower = upper then some (sorted.getD lower.toNat 0)
      else some (sorted.getD lower.toNat 0 * ((upper : ℚ) - index) +
        sorted.getD upper.toNat 0 * (index - (lower : ℚ)))

/-- Sum of squared deviations from the mean, the variance numerator used
inside `correlation` (source: `x.reduce((sum, xi) => sum + Math.pow(xi - meanX, 2), 0)`). -/
def sqDevSum (x : List ℚ) : ℚ := (x.map (fun xi => (xi - mean x) ^ 2)).sum

/-- `correlation(x, y)` from the statistics kernel: Pearson coefficient,
`0` on empty input, mismatched lengths, or a zero denominator
(the JS guard `denominator ? numerator / denominator : 0`). -/
def correlation (x y : List ℚ) : ℚ :=
  if x = [] ∨ y = [] ∨ x.length ≠ y.length then 0 else
    let meanX := mean x
    let meanY := mean y
    let numerator := ((x.zip y).map (fun a => (a.1 - meanX) * (a.2 - meanY))).sum
    let denominator := Rat.sqrt (sqDevSum x * sqDevSum y)
    if denominator = 0 then 0 else numerator / denominator

/-- `correlation`, with the square-root and division sites tracked. -/
def correlation? (x y : List ℚ) : Option ℚ :=
  if x = [] ∨ y = [] ∨ x.length ≠ y.length then some 0 else
    let meanX := mean x
    let meanY := mean y
    let numerator := ((x.zip y).map (fun a => (a.1 - meanX) * (a.2 - meanY))).sum
    (jsqrt (sqDevSum x * sqDevSum y)).bind fun denominator =>
      if denominator = 0 then some 0 else jdiv numerator denominator

-- Basic facts about the kernel helpers.

theorem jdiv_of_ne (a : ℚ) {b : ℚ} (hb : b ≠ 0) : jdiv a b = some (a / b) := by
  simp [jdiv, hb]

theorem jsqrt_of_nonneg {q : ℚ} (hq : 0 ≤ q) : jsqrt q = some (Rat.sqrt q) := by
  simp [jsqrt, not_lt.mpr hq]

theorem rat_sqrt_zero : Rat.sqrt 0 = 0 := by
  have h := Rat.sqrt_eq (0 : ℚ)
  simp only [mul_zero, abs_zero] at h
  exact h

theorem mean?_eq (l : List ℚ) : mean? l = some (mean l) := by
  by_cases h : l = []
  · simp [mean?, mean, h]
  · have : ((l.length : ℚ)) ≠ 0 := by simpa using h
    simp [mean?, mean, h, jdiv_of_ne _ this]

theorem median?_eq (l : List ℚ) : median? l = some (median l) := by
  by_cases h : l = []
  · simp [median?, median, h]
  · simp only [median?, median, h, if_false]
    split
    · rfl
    · rw [jdiv_of_ne _ (by norm_num)]

theorem sum_sq_nonneg (l : List ℚ) (m : ℚ) :
    0 ≤ (l.map (fun v => (v - m) ^ 2)).sum := by
  apply List.sum_nonneg
  intro x hx
  rcases List.mem_map.mp hx with ⟨v, _, rfl⟩
  positivity

theorem mean_nonneg_of_nonneg {l : List ℚ} (h : ∀ x ∈ l, 0 ≤ x) : 0 ≤ mean l := by
  by_cases hl : l = []
  · simp [mean, hl]
  · have hs : 0 ≤ l.sum := List.sum_nonneg h
    have hn : (0 : ℚ) ≤ (l.length : ℚ) := by positivity
    simp only [mean, hl, if_false]
    exact div_nonneg hs hn

theorem mean_pos_of_pos {l : List ℚ} (hne : l ≠ []) (h : ∀ x ∈ l, 0 < x) :
    0 < mean l := by
  have hs : 0 < l.sum := List.sum_pos l h hne
  have hn : (0 : ℚ) < (l.length : ℚ) := by
    simpa using List.length_pos.mpr hne
  simp only [mean, hne, if_false]
  exact div_pos hs hn

theorem standardDeviation?_eq (l : List ℚ) :
    standardDeviation? l = some (standardDeviation l) := by
  by_cases h : l = []
  · simp [standardDeviation?, standardDeviation, h]
  · have hnn : 0 ≤ mean (l.map (fun v => (v - mean l) ^ 2)) :=
      mean_nonneg_of_nonneg (by
        intro x hx
        rcases List.mem_map.mp hx with ⟨v, _, rfl⟩
        positivity)
    simp [standardDeviation?, standardDeviation, h, mean?_eq, jsqrt_of_nonneg hnn]

theorem percentile?_eq (l : List ℚ) (p : ℚ) :
    percentile? l p = some (percentile l p) := by
  by_cases h : l = []
  · simp [percentile?, percentile, h]
  · simp only [percentile?, percentile, h, if_false, jdiv_of_ne p (by norm_num : (100 : ℚ) ≠ 0),
      Option.some_bind]
    split <;> rfl

theorem sqDevSum_nonneg (x : List ℚ) : 0 ≤ sqDevSum x :=
  sum_sq_nonneg x (mean x)

theorem correlation?_eq (x y : List ℚ) : correlation? x y = some (correlation x y) := by
  by_cases h : x = [] ∨ y = [] ∨ x.length ≠ y.length
  · simp [correlation?, correlation, h]
  · have hnn : 0 ≤ sqDevSum x * sqDevSum y :=
      mul_nonneg (sqDevSum_nonneg x) (sqDevSum_nonneg y)
    simp only [correlation?, correlation, h, if_false, jsqrt_of_nonneg hnn, Option.some_bind]
    split
    · rfl
    · exact jdiv_of_ne _ (by assumption)

-- Auxiliary facts used to settle the correlation claim.

theorem list_zip_self (l : List α) : l.zip l = l.map (fun a => (a, a)) := by
  induction l with
  | nil => rfl
  | cons h t ih => simp [List.zip_cons_cons, ih]

theorem sum_nonneg_eq_zero {l : List ℚ} (hnn : ∀ a ∈ l, 0 ≤ a) (hs : l.sum = 0) :
    ∀ a ∈ l, a = 0 := by
  induction l with
  | nil => simp
  | cons h t ih =>
    have hh : 0 ≤ h := hnn h (by simp)
    have ht : 0 ≤ t.sum := List.sum_nonneg (fun a ha => hnn a (by simp [ha]))
    have hsum : h + t.sum = 0 := by simpa using hs
    have hh0 : h = 0 := by linarith
    have ht0 : t.sum = 0 := by linarith
    intro a ha
    rcases List.mem_cons.mp ha with rfl | ha
    · exact hh0
    · exact ih (fun x hx => hnn x (by simp [hx])) ht0 a ha

theorem sqDevSum_eq_zero_of_mem {x : List ℚ} (h : sqDevSum x = 0) :
    ∀ a ∈ x, a = mean x := by
  intro a ha
  have h0 : ((a - mean x) ^ 2) = 0 := by
    refine sum_nonneg_eq_zero (l := x.map (fun xi => (xi - mean x) ^ 2)) ?_ h _ ?_
    · intro b hb
      rcases List.mem_map.mp hb with ⟨v, _, rfl⟩
      positivity
    · exact List.mem_map.mpr ⟨a, ha, rfl⟩
  have := pow_eq_zero_iff (n := 2) (by norm_num) |>.mp h0
  linarith [sub_eq_zero.mp this]

/-- **C6.** `correlation(x, x) = 1` for every non-constant numeric vector
`x`, and `correlation(x, y) = 0` (a rational, hence never `NaN`) whenever
either vector is empty, the lengths differ, or either vector has zero
variance (`sqDevSum`, the denominator factor, is zero). -/
theorem correlation_self_and_degenerate (x y : List ℚ) :
    ((∃ a ∈ x, ∃ b ∈ x, a ≠ b) → correlation x x = 1) ∧
    ((x = [] ∨ y = [] ∨ x.length ≠ y.length ∨ sqDevSum x = 0 ∨ sqDevSum y = 0) →
      correlation x y = 0) := by
  constructor
  · rintro ⟨a, ha, b, hb, hab⟩
    have hs : sqDevSum x ≠ 0 := by
      intro h0
      exact hab ((sqDevSum_eq_zero_of_mem h0 a ha).trans
        (sqDevSum_eq_zero_of_mem h0 b hb).symm)
    have hx : x ≠ [] := by
      intro h
      subst h
      simp at ha
    have hnum : ((x.zip x).map (fun a => (a.1 - mean x) * (a.2 - mean x))).sum = sqDevSum x := by
      rw [list_zip_self, List.map_map, sqDevSum]
      simp only [pow_two]
      exact congrArg List.sum (List.map_congr_left (fun a _ => rfl))
    have hpos : 0 < sqDevSum x := lt_of_le_of_ne (sqDevSum_nonneg x) (Ne.symm hs)
    have hden : Rat.sqrt (sqDevSum x * sqDevSum x) = sqDevSum x := by
      rw [Rat.sqrt_eq]
      exact abs_of_pos hpos
    simp only [correlation, hx, ne_eq, not_true_eq_false, or_self, if_false, hden, hnum,
      false_or, or_false]
    rw [if_neg hs]
    exact div_self hs
  · intro h
    rcases h with h | h | h | h | h
    · simp [correlation, h]
    · simp [correlation, h]
    · simp [correlation, h]
    all_goals
      by_cases hg : x = [] ∨ y = [] ∨ x.length ≠ y.length
      · simp [correlation, hg]
      · simp [correlation, hg, h, rat_sqrt_zero]

/-- Witness for C6 at concrete inputs: `[0, 1]` is non-constant, and the
empty second argument triggers the degenerate case. -/
theorem correlation_self_and_degenerate_witness :
    correlation [0, 1] [0, 1] = 1 ∧ correlation [0, 1] [] = 0 :=
  ⟨(correlation_self_and_degenerate [0, 1] [0, 1]).1
      ⟨0, by norm_num, 1, by norm_num, by norm_num⟩,
    (correlation_self_and_degenerate [0, 1] []).2 (Or.inr (Or.inl rfl))⟩

-- The session data model and the session-duration analytics.

/-- A row of the `app_usage_sessions` table as consumed by the hook.
`created_at` is milliseconds since the Unix epoch (UTC model of the ISO
timestamp string); `none` models a null/absent column. -/
structure Session where
  participant_number : Option String
  duration_minutes : Option ℚ
  created_at : Option ℤ
deriving DecidableEq

/-- The five accepted date-range labels. -/
inductive DateRange | today | d7 | d30 | d90 | all
deriving DecidableEq

/-- The `periodDays` lookup table; `none` is the `'all'` sentinel
(`periodDays[dateRange] || 'all'` — every label is present, so the
fallback only reproduces the table). -/
def periodDays : DateRange → Option ℕ
  | .today => some 1
  | .d7 => some 7
  | .d30 => some 30
  | .d90 => some 90
  | .all => none

/-- `getPreviousPeriodData`: the records whose timestamp falls in
`[now − 2·days, now − days)` (in milliseconds); `[]` for `'all'`. -/
def getPreviousPeriodData (data : List Session) (now : ℤ) (days : Option ℕ) :
    List Session :=
  match days with
  | none => []
  | some d => data.filter fun s =>
      match s.created_at with
      | none => false
      | some t =>
          decide (now - 2 * (d : ℤ) * 24 * 60 * 60 * 1000 ≤ t) &&
          decide (t < now - (d : ℤ) * 24 * 60 * 60 * 1000)

/-- `sessionDurations`: the `duration_minutes` values that are non-null and
strictly positive (`duration != null && duration > 0`). -/
def sessionDurations (sessions : List Session) : List ℚ :=
  (sessions.filterMap Session.duration_minutes).filter fun d => decide (0 < d)

/-- `sessionAnalytics.previousPeriod.change.count`
(`previousSessionDurations.length ? (cur − prev)/prev * 100 : 0`). -/
def changeCount (cur prev : List ℚ) : ℚ :=
  if prev = [] then 0 else ((cur.length : ℚ) - (prev.length : ℚ)) / (prev.length : ℚ) * 100

/-- `changeCount`, with the division site tracked by `jdiv`. -/
def changeCount? (cur prev : List ℚ) : Option ℚ :=
  if prev = [] then some 0 else
    (jdiv ((cur.length : ℚ) - (prev.length : ℚ)) (prev.length : ℚ)).map (· * 100)

/-- `sessionAnalytics.previousPeriod.change.mean`
(`previousSessionDurations.length ? (mean cur − mean prev)/mean prev * 100 : 0`);
note the guard tests the length while the division is by the mean. -/
def changeMean (cur prev : List ℚ) : ℚ :=
  if prev = [] then 0 else (mean cur - mean prev) / mean prev * 100

/-- `changeMean`, with the division site tracked by `jdiv`. -/
def changeMean? (cur prev : List ℚ) : Option ℚ :=
  if prev = [] then some 0 else
    (jdiv (mean cur - mean prev) (mean prev)).map (· * 100)

theorem sessionDurations_pos (sessions : List Session) :
    ∀ d ∈ sessionDurations sessions, 0 < d := by
  intro d hd
  have := List.mem_filter.mp hd
  simpa using this.2

theorem changeCount?_eq (cur prev : List ℚ) :
    changeCount? cur prev = some (changeCount cur prev) := by
  by_cases h : prev = []
  · simp [changeCount?, changeCount, h]
  · have : ((prev.length : ℚ)) ≠ 0 := by simpa using h
    simp [changeCount?, changeCount, h, jdiv_of_ne _ this]

theorem changeMean?_eq (cur : List ℚ) {prev : List ℚ}
    (hpos : ∀ d ∈ prev, 0 < d) :
    changeMean? cur prev = some (changeMean cur prev) := by
  by_cases h : prev = []
  · simp [changeMean?, changeMean, h]
  · have : mean prev ≠ 0 := ne_of_gt (mean_pos_of_pos h hpos)
    simp [changeMean?, changeMean, h, jdiv_of_ne _ this]

/-- **C8.** With no matching records in the immediately preceding window
(no non-null strictly positive duration there), both period-over-period
percentage changes are `0` — and never `NaN`/`Infinity`, as the tracked
computations return `some`; with a non-empty previous period they equal
`(current − previous) / previous × 100`. -/
theorem previous_period_change_spec (sessions : List Session) (now : ℤ)
    (range : DateRange) :
    (sessionDurations (getPreviousPeriodData sessions now (periodDays range)) = [] →
      changeCount (sessionDurations sessions)
        (sessionDurations (getPreviousPeriodData sessions now (periodDays range))) = 0 ∧
      changeMean (sessionDurations sessions)
        (sessionDurations (getPreviousPeriodData sessions now (periodDays range))) = 0) ∧
    (sessionDurations (getPreviousPeriodData sessions now (periodDays range)) ≠ [] →
      changeCount (sessionDurations sessions)
        (sessionDurations (getPreviousPeriodData sessions now (periodDays range))) =
        ((sessionDurations sessions).length -
          (sessionDurations (getPreviousPeriodData sessions now (periodDays range))).length) /
          (sessionDurations (getPreviousPeriodData sessions now (periodDays range))).length
          * 100 ∧
      changeMean (sessionDurations sessions)
        (sessionDurations (getPreviousPeriodData sessions now (periodDays range))) =
        (mean (sessionDurations sessions) -
          mean (sessionDurations (getPreviousPeriodData sessions now (periodDays range)))) /
          mean (sessionDurations (getPreviousPeriodData sessions now (periodDays range)))
          * 100) ∧
    changeCount? (sessionDurations sessions)
      (sessionDurations (getPreviousPeriodData sessions now (periodDays range))) =
      some (changeCount (sessionDurations sessions)
        (sessionDurations (getPreviousPeriodData sessions now (periodDays range)))) ∧
    changeMean? (sessionDurations sessions)
      (sessionDurations (getPreviousPeriodData sessions now (periodDays range))) =
      some (changeMean (sessionDurations sessions)
        (sessionDurations (getPreviousPeriodData sessions now (periodDays range)))) := by
  refine ⟨?_, ?_, ?_, ?_⟩
  · intro h
    simp [changeCount, changeMean, h]
  · intro h
    simp [changeCount, changeMean, h]
  · exact changeCount?_eq _ _
  · exact changeMean?_eq _ (sessionDurations_pos _)

/-- Witness for C8: one session ten days old relative to `now` lands in the
previous 7-day window, so the change formulas are exercised on a non-empty
previous period (current period durations also see that same session, since
the hook never filters the current arrays). -/
theorem previous_period_change_spec_witness :
    sessionDurations (getPreviousPeriodData
        [⟨some "A", some 10, some (-(864000000 : ℤ))⟩] 0 (periodDays .d7)) ≠ [] ∧
    changeCount (sessionDurations [⟨some "A", some 10, some (-(864000000 : ℤ))⟩])
      (sessionDurations (getPreviousPeriodData
        [⟨some "A", some 10, some (-(864000000 : ℤ))⟩] 0 (periodDays .d7))) = 0 := by
  have h := (previous_period_change_spec
    [⟨some "A", some 10, some (-(864000000 : ℤ))⟩] 0 .d7).2.1 (by decide)
  refine ⟨by decide, ?_⟩
  rw [h.1]
  norm_num [sessionDurations, getPreviousPeriodData, periodDays]

-- Per-participant feature vectors (the correlation analyzer's fold).

/-- Accumulator entry of the per-participant fold (sessions / totalDuration
/ avgDuration). -/
structure PData where
  sessions : ℕ
  totalDuration : ℚ
  avgDuration : ℚ
deriving DecidableEq

/-- One update of a participant entry: `sessions += 1`,
`totalDuration += d`, `avgDuration = totalDuration / sessions`. -/
def pdApply (pd : PData) (d : ℚ) : PData :=
  ⟨pd.sessions + 1, pd.totalDuration + d, (pd.totalDuration + d) / ((pd.sessions : ℚ) + 1)⟩

/-- `pdApply`, with the division site tracked by `jdiv`. -/
def pdApply? (pd : PData) (d : ℚ) : Option PData :=
  (jdiv (pd.totalDuration + d) ((pd.sessions : ℚ) + 1)).map fun avg =>
    ⟨pd.sessions + 1, pd.totalDuration + d, avg⟩

/-- Insert-or-update of the association list keyed by participant number
(a fresh participant starts from the zero record created by the source). -/
def pdUpdate : List (String × PData) → String → ℚ → List (String × PData)
  | [], p, d => [(p, pdApply ⟨0, 0, 0⟩ d)]
  | (q, pd) :: rest, p, d =>
      if q = p then (q, pdApply pd d) :: rest
      else (q, pd) :: pdUpdate rest p d

/-- `pdUpdate`, with the division sites tracked. -/
def pdUpdate? : List (String × PData) → String → ℚ → Option (List (String × PData))
  | [], p, d => (pdApply? ⟨0, 0, 0⟩ d).map fun x => [(p, x)]
  | (q, pd) :: rest, p, d =>
      if q = p then (pdApply? pd d).map fun x => (q, x) :: rest
      else (pdUpdate? rest p d).map fun r => (q, pd) :: r

/-- One step of the fold over sessions: the JS guard
`session.participant_number && session.duration_minutes` (truthiness:
non-empty string, non-zero number). -/
def pdStep (acc : List (String × PData)) (s : Session) : List (String × PData) :=
  match s.participant_number, s.duration_minutes with
  | some p, some d => if p ≠ "" ∧ d ≠ 0 then pdUpdate acc p d else acc
  | _, _ => acc

/-- `pdStep`, with the division sites tracked. -/
def pdStep? (acc : List (String × PData)) (s : Session) :
    Option (List (String × PData)) :=
  match s.participant_number, s.duration_minutes with
  | some p, some d => if p ≠ "" ∧ d ≠ 0 then pdUpdate? acc p d else some acc
  | _, _ => some acc

/-- `participantData` from the correlation analyzer: fold the session
stream into per-participant feature vectors. -/
def participantData (sessions : List Session) : List (String × PData) :=
  sessions.foldl pdStep []

/-- `participantData`, with the division sites tracked. -/
def participantData? (sessions : List Session) : Option (List (String × PData)) :=
  sessions.foldlM pdStep? []

theorem pdApply?_eq (pd : PData) (d : ℚ) : pdApply? pd d = some (pdApply pd d) := by
  have h : ((pd.sessions : ℚ) + 1) ≠ 0 := by positivity
  simp [pdApply?, pdApply, jdiv_of_ne _ h]

theorem pdUpdate?_eq (acc : List (String × PData)) (p : String) (d : ℚ) :
    pdUpdate? acc p d = some (pdUpdate acc p d) := by
  induction acc with
  | nil => simp [pdUpdate?, pdUpdate, pdApply?_eq]
  | cons h t ih =>
    obtain ⟨q, pd⟩ := h
    by_cases hq : q = p
    · simp [pdUpdate?, pdUpdate, hq, pdApply?_eq]
    · simp [pdUpdate?, pdUpdate, hq, ih]

theorem pdStep?_eq (acc : List (String × PData)) (s : Session) :
    pdStep? acc s = some (pdStep acc s) := by
  unfold pdStep? pdStep
  rcases hp : s.participant_number with _ | p <;> rcases hd : s.duration_minutes with _ | d
  all_goals simp only
  split
  · exact pdUpdate?_eq _ _ _
  · rfl

theorem participantData?_eq (sessions : List Session) :
    participantData? sessions = some (participantData sessions) := by
  unfold participantData? participantData
  generalize [] = acc
  induction sessions generalizing acc with
  | nil => rfl
  | cons s t ih => simp [List.foldlM, List.foldl, pdStep?_eq, ih]

/-- Sessions kept by the per-participant fold: truthy participant number
and a strictly positive duration (assuming the documented non-negativity
of durations, truthiness `d != 0` is exactly `0 < d`). -/
def keepSession (s : Session) : Bool :=
  match s.participant_number, s.duration_minutes with
  | some p, some d => decide (p ≠ "") && decide (0 < d)
  | _, _ => false

theorem pdStep_skip {s : Session}
    (h : s.duration_minutes = some 0 ∨ s.duration_minutes = none)
    (acc : List (String × PData)) : pdStep acc s = acc := by
  rcases h with h | h <;>
    rcases hp : s.participant_number with _ | p <;> simp [pdStep, h, hp]

theorem foldl_pdStep_filter (l : List Session) (acc : List (String × PData))
    (hnn : ∀ x ∈ l, ∀ q, x.duration_minutes = some q → 0 ≤ q) :
    (l.filter keepSession).foldl pdStep acc = l.foldl pdStep acc := by
  induction l generalizing acc with
  | nil => rfl
  | cons s t ih =>
    have ht : ∀ x ∈ t, ∀ q, x.duration_minutes = some q → 0 ≤ q :=
      fun x hx => hnn x (by simp [hx])
    by_cases hk : keepSession s
    · rw [List.filter_cons_of_pos hk, List.foldl_cons, List.foldl_cons, ih _ ht]
    · have hskip : pdStep acc s = acc := by
        unfold pdStep
        unfold keepSession at hk
        rcases hp : s.participant_number with _ | p <;>
          rcases hd : s.duration_minutes with _ | d <;> simp only [hp, hd] at hk ⊢
        have hd0 : 0 ≤ d := hnn s (by simp) d hd
        rw [if_neg]
        rintro ⟨hpe, hde⟩
        exact hk (by simp [hpe, lt_of_le_of_ne hd0 (Ne.symm hde)])
      rw [List.filter_cons_of_neg hk, List.foldl_cons, hskip, ih _ ht]

/-- **C9.** A session whose `duration_minutes` is exactly `0` (or null) is
excluded from the duration aggregates and from the per-participant feature
vectors, exactly like an absent duration; and only strictly positive
durations ever enter: every element of `sessionDurations` is positive, and
(under the documented non-negativity of stored durations) `participantData`
only sees sessions with a truthy participant and a strictly positive
duration. -/
theorem zero_duration_excluded (pre post : List Session) (s : Session)
    (hs : s.duration_minutes = some 0 ∨ s.duration_minutes = none)
    (sessions : List Session)
    (hnn : ∀ x ∈ sessions, ∀ q, x.duration_minutes = some q → 0 ≤ q) :
    sessionDurations (pre ++ s :: post) = sessionDurations (pre ++ post) ∧
    participantData (pre ++ s :: post) = participantData (pre ++ post) ∧
    (∀ d ∈ sessionDurations sessions, 0 < d) ∧
    participantData sessions = participantData (sessions.filter keepSession) := by
  refine ⟨?_, ?_, sessionDurations_pos sessions, ?_⟩
  · rcases hs with h | h <;>
      simp [sessionDurations, List.filterMap_append, h]
  · unfold participantData
    rw [List.foldl_append, List.foldl_append, List.foldl_cons, pdStep_skip hs]
  · exact (foldl_pdStep_filter sessions [] hnn).symm

/-- Witness for C9 at a concrete input: a lone zero-duration session
contributes to nothing. -/
theorem zero_duration_excluded_witness :
    sessionDurations ([] ++ ⟨some "A", some 0, none⟩ :: []) = sessionDurations ([] ++ []) ∧
    participantData ([] ++ ⟨some "A", some 0, none⟩ :: []) = participantData ([] ++ []) ∧
    (∀ d ∈ sessionDurations [⟨some "A", some 0, none⟩], 0 < d) ∧
    participantData [⟨some "A", some 0, none⟩] =
      participantData ([⟨some "A", some 0, none⟩].filter keepSession) :=
  zero_duration_excluded [] [] ⟨some "A", some 0, none⟩ (Or.inl rfl)
    [⟨some "A", some 0, none⟩]
    (by
      intro x hx q hq
      rw [List.mem_singleton] at hx
      subst hx
      simp only [Option.some.injEq] at hq
      exact hq ▸ le_refl 0)

-- Time-series bucketing and the linear-regression trend.

/-- Day number of a timestamp (milliseconds → days since the epoch,
flooring). -/
def epochDay (t : ℤ) : ℤ := Int.fdiv t 86400000

/-- `Date.prototype.getDay` (UTC model): the epoch was a Thursday. -/
def dayOfWeek (t : ℤ) : ℤ := (epochDay t + 4).emod 7

/-- `Date.prototype.getHours` (UTC model). -/
def utcHour (t : ℤ) : ℤ := t.emod 86400000 / 3600000

/-- Days-since-epoch to civil `(year, month 1–12, day)` (the standard
era-based conversion; all intermediate divisions act on non-negative
values, where `Int` division is the required floor). -/
def civilFromDays (z : ℤ) : ℤ × ℤ × ℤ :=
  let z' := z + 719468
  let era := Int.fdiv z' 146097
  let doe := z' - era * 146097
  let yoe := (doe - doe / 1460 + doe / 36524 - doe / 146096) / 365
  let y := yoe + era * 400
  let doy := doe - (365 * yoe + yoe / 4 - yoe / 100)
  let mp := (5 * doy + 2) / 153
  let d := doy - (153 * mp + 2) / 5 + 1
  let m := mp + (if mp < 10 then 3 else -9)
  (y + (if m ≤ 2 then 1 else 0), m, d)

/-- The month bucket key `` `${date.getFullYear()}-${date.getMonth() + 1}` ``
— note the month is **not** zero-padded. -/
def monthKey (t : ℤ) : String :=
  let c := civilFromDays (epochDay t)
  toString c.1 ++ "-" ++ toString c.2.1

/-- Bucket granularities of the temporal aggregator. -/
inductive Grouping | daily | weekly | monthly
deriving DecidableEq

/-- `getTimeSeriesGrouping` (applied to 365 for `'all'`). -/
def getTimeSeriesGrouping (days : ℕ) : Grouping :=
  if days ≤ 7 then .daily
  else if days ≤ 30 then .daily
  else if days ≤ 90 then .weekly
  else .monthly

/-- A time-series bucket key: a calendar day (daily/weekly groupings sort
numerically via `Date` subtraction) or a `year-month` string (monthly
grouping sorts with `localeCompare`). -/
inductive PeriodKey
  | day (d : ℤ)
  | month (s : String)
deriving DecidableEq

/-- Bucket key of one session timestamp (`toDateString` for daily, start
of week for weekly, `year-month` for monthly). -/
def bucketKey (g : Grouping) (t : ℤ) : PeriodKey :=
  match g with
  | .daily => .day (epochDay t)
  | .weekly => .day (epochDay t - dayOfWeek t)
  | .monthly => .month (monthKey t)

/-- Insert-or-increment for the bucket-count object (keeps first-insertion
order, as JS object keys do for non-integer-like string keys). -/
def bumpCount : List (PeriodKey × ℕ) → PeriodKey → List (PeriodKey × ℕ)
  | [], k => [(k, 1)]
  | (k', c) :: rest, k =>
      if k' = k then (k', c + 1) :: rest else (k', c) :: bumpCount rest k

/-- `sessionsByPeriod`: count sessions per bucket (records with a null
`created_at` are ignored). -/
def sessionsByPeriod (g : Grouping) (sessions : List Session) :
    List (PeriodKey × ℕ) :=
  sessions.foldl
    (fun acc s =>
      match s.created_at with
      | some t => bumpCount acc (bucketKey g t)
      | none => acc)
    []

/-- Lexicographic comparison of character lists by code point — the
behaviour of `localeCompare` (and of JS UTF-16 string comparison) on the
ASCII digit/hyphen keys produced by the bucketing. -/
def strLtChars : List Char → List Char → Bool
  | [], [] => false
  | [], _ :: _ => true
  | _ :: _, [] => false
  | a :: as, b :: bs =>
      if a.toNat < b.toNat then true
      else if b.toNat < a.toNat then false
      else strLtChars as bs

/-- The sort comparator of `timeSeriesData`: numeric `Date` difference for
daily/weekly buckets, `localeCompare` for monthly buckets (lexicographic
string order; mixed keys cannot occur). -/
def periodLe (a b : PeriodKey × ℕ) : Bool :=
  match a.1, b.1 with
  | .day x, .day y => decide (x ≤ y)
  | .month x, .month y => !strLtChars y.data x.data
  | _, _ => true

/-- `timeSeriesData`: the populated buckets, sorted with `periodLe`
(JS `Array.prototype.sort` is stable; keys are distinct, so the comparator
determines the order). -/
def timeSeriesData (g : Grouping) (sessions : List Session) :
    List (PeriodKey × ℕ) :=
  (sessionsByPeriod g sessions).mergeSort periodLe

/-- Trend direction classification (`> 0.1` / `< −0.1`). -/
inductive TrendDir | increasing | decreasing | stable
deriving DecidableEq

/-- `calculateTrend`'s direction of a slope. -/
def dirOfSlope (s : ℚ) : TrendDir :=
  if (0.1 : ℚ) < s then .increasing
  else if s < -(0.1 : ℚ) then .decreasing
  else .stable

/-- `calculateTrend`: least-squares slope of bucket index vs. count, and
its direction; `(0, stable)` for fewer than two buckets. -/
def calculateTrend (data : List (PeriodKey × ℕ)) : ℚ × TrendDir :=
  if data.length < 2 then (0, .stable) else
    let n : ℚ := data.length
    let sumX : ℚ := (data.enum.map (fun p => (p.1 : ℚ))).sum
    let sumY : ℚ := (data.map (fun b => (b.2 : ℚ))).sum
    let sumXY : ℚ := (data.enum.map (fun p => (p.1 : ℚ) * (p.2.2 : ℚ))).sum
    let sumXX : ℚ := (data.enum.map (fun p => (p.1 : ℚ) * (p.1 : ℚ))).sum
    let slope := (n * sumXY - sumX * sumY) / (n * sumXX - sumX * sumX)
    (slope, dirOfSlope slope)

/-- `calculateTrend`, with the division site tracked by `jdiv`. -/
def calculateTrend? (data : List (PeriodKey × ℕ)) : Option (ℚ × TrendDir) :=
  if data.length < 2 then some (0, .stable) else
    let n : ℚ := data.length
    let sumX : ℚ := (data.enum.map (fun p => (p.1 : ℚ))).sum
    let sumY : ℚ := (data.map (fun b => (b.2 : ℚ))).sum
    let sumXY : ℚ := (data.enum.map (fun p => (p.1 : ℚ) * (p.2.2 : ℚ))).sum
    let sumXX : ℚ := (data.enum.map (fun p => (p.1 : ℚ) * (p.1 : ℚ))).sum
    (jdiv (n * sumXY - sumX * sumY) (n * sumXX - sumX * sumX)).map fun slope =>
      (slope, dirOfSlope slope)

/-- `Σ_{i<n} i` over `ℚ`. -/
def rangeSum (n : ℕ) : ℚ := ((List.range n).map (fun i : ℕ => (i : ℚ))).sum

/-- `Σ_{i<n} i·i` over `ℚ`. -/
def rangeSumSq (n : ℕ) : ℚ := ((List.range n).map (fun i : ℕ => (i : ℚ) * (i : ℚ))).sum

theorem rangeSum_eq (n : ℕ) : 2 * rangeSum n = (n : ℚ) * ((n : ℚ) - 1) := by
  induction n with
  | zero => simp [rangeSum]
  | succ k ih =>
    have h : rangeSum (k + 1) = rangeSum k + (k : ℚ) := by
      unfold rangeSum
      rw [List.range_succ, List.map_append, List.sum_append]
      simp
    rw [h]
    push_cast
    linear_combination ih

theorem rangeSumSq_eq (n : ℕ) :
    6 * rangeSumSq n = (n : ℚ) * ((n : ℚ) - 1) * (2 * (n : ℚ) - 1) := by
  induction n with
  | zero => simp [rangeSumSq]
  | succ k ih =>
    have h : rangeSumSq (k + 1) = rangeSumSq k + (k : ℚ) * (k : ℚ) := by
      unfold rangeSumSq
      rw [List.range_succ, List.map_append, List.sum_append]
      simp
    rw [h]
    push_cast
    linear_combination ih

theorem trend_denominator_pos {n : ℕ} (hn : 2 ≤ n) :
    0 < (n : ℚ) * rangeSumSq n - rangeSum n * rangeSum n := by
  have h1 := rangeSum_eq n
  have h2 := rangeSumSq_eq n
  have hn' : (2 : ℚ) ≤ (n : ℚ) := by exact_mod_cast hn
  nlinarith [sq_nonneg ((n : ℚ) - 1), sq_nonneg ((n : ℚ))]

theorem enum_sum_fst (data : List (PeriodKey × ℕ)) :
    (data.enum.map (fun p => (p.1 : ℚ))).sum = rangeSum data.length := by
  rw [rangeSum]
  have h : data.enum.map (fun p => ((p.1 : ℚ))) =
      (data.enum.map Prod.fst).map (fun i : ℕ => (i : ℚ)) := by
    rw [List.map_map]
    rfl
  rw [h, List.enum_map_fst]

theorem enum_sum_fst_sq (data : List (PeriodKey × ℕ)) :
    (data.enum.map (fun p => (p.1 : ℚ) * (p.1 : ℚ))).sum = rangeSumSq data.length := by
  rw [rangeSumSq]
  have h : data.enum.map (fun p => ((p.1 : ℚ) * (p.1 : ℚ))) =
      (data.enum.map Prod.fst).map (fun i : ℕ => (i : ℚ) * (i : ℚ)) := by
    rw [List.map_map]
    rfl
  rw [h, List.enum_map_fst]

theorem calculateTrend?_eq (data : List (PeriodKey × ℕ)) :
    calculateTrend? data = some (calculateTrend data) := by
  by_cases h : data.length < 2
  · simp [calculateTrend?, calculateTrend, h]
  · have hd : (data.length : ℚ) *
        (data.enum.map (fun p => (p.1 : ℚ) * (p.1 : ℚ))).sum -
        (data.enum.map (fun p => (p.1 : ℚ))).sum *
        (data.enum.map (fun p => (p.1 : ℚ))).sum ≠ 0 := by
      rw [enum_sum_fst, enum_sum_fst_sq]
      exact ne_of_gt (trend_denominator_pos (not_lt.mp h))
    simp only [calculateTrend?, calculateTrend, h, if_false, jdiv_of_ne _ hd]
    rfl

/-- **C3 (failing part).** Under the monthly grouping selected by the
`'all'` range, two sessions dated 2024-09-15 and 2024-10-15 produce the
bucket list `["2024-10", "2024-9"]`: the *later* calendar month sorts
first, because the unpadded `year-month` keys are compared
lexicographically (`"2024-10" < "2024-9"`), so the list is not in
chronological ascending order. -/
theorem timeSeries_monthly_order_bug :
    getTimeSeriesGrouping 365 = Grouping.monthly ∧
    monthKey 1726358400000 = "2024-9" ∧
    monthKey 1728950400000 = "2024-10" ∧
    timeSeriesData (getTimeSeriesGrouping 365)
      [⟨some "A", some 5, some (1726358400000 : ℤ)⟩,
       ⟨some "A", some 5, some (1728950400000 : ℤ)⟩] =
      [(.month "2024-10", 1), (.month "2024-9", 1)] := by
  refine ⟨by decide, by decide, by decide, ?_⟩
  simp only [timeSeriesData]
  rw [show sessionsByPeriod (getTimeSeriesGrouping 365)
      [⟨some "A", some 5, some (1726358400000 : ℤ)⟩,
       ⟨some "A", some 5, some (1728950400000 : ℤ)⟩] =
      [(.month "2024-9", 1), (.month "2024-10", 1)] from by decide]
  simp [List.mergeSort, List.merge, periodLe, strLtChars]

-- The distribution analyzer over flat records.

/-- A JavaScript field value as stored in a fetched record. -/
inductive JsVal
  | vNull
  | vBool (b : Bool)
  | vNum (q : ℚ)
  | vStr (s : String)
deriving DecidableEq

/-- `String(value)` as applied by the distribution analyzer.  Integral
numbers print as in JS; the decimal formatting of non-integral numbers is
approximated by the rational printer (no property below depends on it),
and `null` never reaches this function (the fold filters it out). -/
def jsString : JsVal → String
  | .vNull => "null"
  | .vBool true => "true"
  | .vBool false => "false"
  | .vNum q => if q.den = 1 then toString q.num else toString q
  | .vStr s => s

/-- A fetched record: association list of field name to value (JS object
keys are distinct and iterate in insertion order). -/
abbrev JsRecord := List (String × JsVal)

/-- First-match association lookup (JS property access). -/
def lookupA {κ β : Type} [DecidableEq κ] : List (κ × β) → κ → Option β
  | [], _ => none
  | (k', v) :: rest, k => if k' = k then some v else lookupA rest k

/-- `m[v] = (m[v] || 0) + 1` on a value-count object. -/
def bumpVal : List (String × ℕ) → String → List (String × ℕ)
  | [], v => [(v, 1)]
  | (w, c) :: rest, v =>
      if w = v then (w, c + 1) :: rest else (w, c) :: bumpVal rest v

/-- `if (!acc[k]) acc[k] = {}; acc[k][v] = (acc[k][v] || 0) + 1`. -/
def bumpField : List (String × List (String × ℕ)) → String → String →
    List (String × List (String × ℕ))
  | [], k, v => [(k, bumpVal [] v)]
  | (k', m) :: rest, k, v =>
      if k' = k then (k', bumpVal m v) :: rest
      else (k', m) :: bumpField rest k v

/-- One entry of one demographic record: counted unless the value is null
or the key is `id`/`created_at`. -/
def demoEntryStep (acc : List (String × List (String × ℕ)))
    (kv : String × JsVal) : List (String × List (String × ℕ)) :=
  if kv.2 ≠ JsVal.vNull ∧ kv.1 ≠ "id" ∧ kv.1 ≠ "created_at" then
    bumpField acc kv.1 (jsString kv.2)
  else acc

/-- All entries of one demographic record. -/
def demoRecordStep (acc : List (String × List (String × ℕ))) (r : JsRecord) :
    List (String × List (String × ℕ)) :=
  r.foldl demoEntryStep acc

/-- `demographicDistribution`: fold the demographics array into
`field → (stringified value → count)`. -/
def demographicDistribution (demos : List JsRecord) :
    List (String × List (String × ℕ)) :=
  demos.foldl demoRecordStep []

/-- Count held by a value-count object (0 when absent). -/
def cntVal (m : List (String × ℕ)) (v : String) : ℕ := (lookupA m v).getD 0

/-- Count held by the distribution for field `k` and value `v`. -/
def distCount (acc : List (String × List (String × ℕ))) (k v : String) : ℕ :=
  cntVal ((lookupA acc k).getD []) v

/-- Entries of one record that the analyzer counts under field `k`,
value `v`. -/
def recCount (r : JsRecord) (k v : String) : ℕ :=
  (r.filter fun kv =>
    decide (kv.1 = k) && decide (kv.2 ≠ JsVal.vNull) &&
      decide (jsString kv.2 = v)).length

theorem cntVal_bumpVal_self (m : List (String × ℕ)) (v : String) :
    cntVal (bumpVal m v) v = cntVal m v + 1 := by
  induction m with
  | nil => simp [cntVal, bumpVal, lookupA]
  | cons h t ih =>
    obtain ⟨w, c⟩ := h
    by_cases hw : w = v
    · simp [cntVal, bumpVal, lookupA, hw]
    · simp only [cntVal, bumpVal, lookupA, hw, if_false] at *
      exact ih

theorem cntVal_bumpVal_other (m : List (String × ℕ)) {v v' : String}
    (h : v' ≠ v) : cntVal (bumpVal m v) v' = cntVal m v' := by
  induction m with
  | nil => simp [cntVal, bumpVal, lookupA, Ne.symm h]
  | cons hd t ih =>
    obtain ⟨w, c⟩ := hd
    by_cases hw : w = v
    · subst hw
      simp [cntVal, bumpVal, lookupA, Ne.symm h]
    · by_cases hw' : w = v'
      · subst hw'
        simp [cntVal, bumpVal, lookupA, hw, h]
      · simp only [cntVal, bumpVal, lookupA, hw, hw', if_false, if_neg] at *
        exact ih

theorem lookupA_bumpField_self (acc : List (String × List (String × ℕ)))
    (k v : String) :
    lookupA (bumpField acc k v) k = some (bumpVal ((lookupA acc k).getD []) v) := by
  induction acc with
  | nil => simp [bumpField, lookupA]
  | cons h t ih =>
    obtain ⟨k', m⟩ := h
    by_cases hk : k' = k
    · simp [bumpField, lookupA, hk]
    · simp only [bumpField, lookupA, hk, if_false, if_neg] at *
      exact ih

theorem lookupA_bumpField_other (acc : List (String × List (String × ℕ)))
    {k k' : String} (v : String) (h : k' ≠ k) :
    lookupA (bumpField acc k v) k' = lookupA acc k' := by
  induction acc with
  | nil => simp [bumpField, lookupA, Ne.symm h]
  | cons hd t ih =>
    obtain ⟨w, m⟩ := hd
    by_cases hw : w = k
    · subst hw
      simp [bumpField, lookupA, Ne.symm h]
    · by_cases hw' : w = k'
      · subst hw'
        simp [bumpField, lookupA, hw, h]
      · simp only [bumpField, lookupA, hw, hw', if_false, if_neg] at *
        exact ih

theorem distCount_bumpField_self (acc : List (String × List (String × ℕ)))
    (k v : String) :
    distCount (bumpField acc k v) k v = distCount acc k v + 1 := by
  rw [distCount, lookupA_bumpField_self]
  simp [cntVal_bumpVal_self, distCount]

theorem distCount_bumpField_other (acc : List (String × List (String × ℕ)))
    {k v k' v' : String} (h : k' ≠ k ∨ v' ≠ v) :
    distCount (bumpField acc k v) k' v' = distCount acc k' v' := by
  by_cases hk : k' = k
  · subst hk
    rcases h with h | h
    · exact absurd rfl h
    · rw [distCount, lookupA_bumpField_self]
      simp [distCount, cntVal_bumpVal_other _ h]
  · rw [distCount, lookupA_bumpField_other _ _ hk, distCount]

theorem distCount_demoRecordStep (r : JsRecord)
    (acc : List (String × List (String × ℕ))) {k : String} (v : String)
    (hk1 : k ≠ "id") (hk2 : k ≠ "created_at") :
    distCount (demoRecordStep acc r) k v = distCount acc k v + recCount r k v := by
  induction r generalizing acc with
  | nil => simp [demoRecordStep, recCount]
  | cons kv t ih =>
    rw [demoRecordStep, List.foldl_cons]
    have hstep := ih (demoEntryStep acc kv)
    rw [demoRecordStep] at hstep
    by_cases hmatch : kv.1 = k ∧ kv.2 ≠ JsVal.vNull ∧ jsString kv.2 = v
    · obtain ⟨h1, h2, h3⟩ := hmatch
      have hproc : demoEntryStep acc kv = bumpField acc kv.1 (jsString kv.2) := by
        rw [demoEntryStep, if_pos]
        exact ⟨h2, h1 ▸ hk1, h1 ▸ hk2⟩
      have hrec : recCount (kv :: t) k v = recCount t k v + 1 := by
        rw [recCount, recCount, List.filter_cons, if_pos (by simp [h1, h2, h3])]
        simp [Nat.add_comm]
      rw [hstep, hproc, h1, h3, distCount_bumpField_self, hrec]
      omega
    · have hrec : recCount (kv :: t) k v = recCount t k v := by
        rw [recCount, recCount, List.filter_cons, if_neg]
        simp only [Bool.and_eq_true, decide_eq_true_eq]
        rintro ⟨⟨a, b⟩, c⟩
        exact hmatch ⟨a, b, c⟩
      have hentry : distCount (demoEntryStep acc kv) k v = distCount acc k v := by
        rw [demoEntryStep]
        split
        · rename_i hc
          apply distCount_bumpField_other
          by_cases hkk : kv.1 = k
          · exact Or.inr fun hv => hmatch ⟨hkk, hc.1, hv.symm⟩
          · exact Or.inl fun h => hkk h.symm
        · rfl
      rw [hstep, hrec, hentry]

theorem lookupA_demoRecordStep_excluded (r : JsRecord)
    (acc : List (String × List (String × ℕ))) {k : String}
    (hk : k = "id" ∨ k = "created_at") :
    lookupA (demoRecordStep acc r) k = lookupA acc k := by
  induction r generalizing acc with
  | nil => rfl
  | cons kv t ih =>
    rw [demoRecordStep, List.foldl_cons]
    have hstep := ih (demoEntryStep acc kv)
    rw [demoRecordStep] at hstep
    have hentry : lookupA (demoEntryStep acc kv) k = lookupA acc k := by
      rw [demoEntryStep]
      split
      · rename_i hc
        apply lookupA_bumpField_other
        rcases hk with rfl | rfl
        · exact fun h => hc.2.1 h.symm
        · exact fun h => hc.2.2 h.symm
      · rfl
    rw [hstep, hentry]

/-- **C4 (amended; counterexample below).** The demographic distribution
never has an entry for `id` or `created_at`; every *other* field —
including identifier fields such as `participant_id` or `sample_code` —
maps each stringified value to the number of counted record entries
(non-null values only, collapsed by string coercion). -/
theorem lookupA_distribution_foldl (demos : List JsRecord)
    (acc : List (String × List (String × ℕ))) {k : String}
    (hk : k = "id" ∨ k = "created_at") :
    lookupA (demos.foldl demoRecordStep acc) k = lookupA acc k := by
  induction demos generalizing acc with
  | nil => rfl
  | cons r t ih =>
    rw [List.foldl_cons, ih, lookupA_demoRecordStep_excluded r acc hk]

theorem distCount_distribution_foldl (demos : List JsRecord)
    (acc : List (String × List (String × ℕ))) {k : String} (v : String)
    (hk1 : k ≠ "id") (hk2 : k ≠ "created_at") :
    distCount (demos.foldl demoRecordStep acc) k v =
      distCount acc k v + (demos.map fun r => recCount r k v).sum := by
  induction demos generalizing acc with
  | nil => simp
  | cons r t ih =>
    rw [List.foldl_cons, ih, distCount_demoRecordStep r acc v hk1 hk2]
    simp [Nat.add_assoc]

theorem demographic_distribution_spec (demos : List JsRecord) :
    lookupA (demographicDistribution demos) "id" = none ∧
    lookupA (demographicDistribution demos) "created_at" = none ∧
    ∀ k v : String, k ≠ "id" → k ≠ "created_at" →
      distCount (demographicDistribution demos) k v =
        (demos.map fun r => recCount r k v).sum := by
  refine ⟨?_, ?_, ?_⟩
  · rw [demographicDistribution, lookupA_distribution_foldl demos [] (Or.inl rfl)]
    rfl
  · rw [demographicDistribution, lookupA_distribution_foldl demos [] (Or.inr rfl)]
    rfl
  · intro k v hk1 hk2
    rw [demographicDistribution, distCount_distribution_foldl demos [] v hk1 hk2]
    simp [distCount, cntVal, lookupA]

/-- Counterexample to C4 as stated: a record field named `participant_id`
*does* receive an entry in the demographic distribution (the source only
excludes the literal keys `id` and `created_at`). -/
theorem demographic_distribution_participant_id_counterexample :
    lookupA (demographicDistribution [[("participant_id", JsVal.vStr "P7")]])
      "participant_id" ≠ none := by decide

/-- Witness for the amended C4 at a concrete input: two records with
`gender = "F"` yield count 2. -/
theorem demographic_distribution_spec_witness :
    distCount (demographicDistribution
      [[("gender", JsVal.vStr "F")], [("gender", JsVal.vStr "F")]]) "gender" "F" =
      ([[("gender", JsVal.vStr "F")], [("gender", JsVal.vStr "F")]].map
        fun r => recCount r "gender" "F").sum :=
  (demographic_distribution_spec _).2.2 "gender" "F" (by decide) (by decide)

-- Pretest response analysis.

/-- Prefix test on character lists. -/
def startsWithChars : List Char → List Char → Bool
  | [], _ => true
  | _ :: _, [] => false
  | a :: as, b :: bs => a == b && startsWithChars as bs

/-- Substring test on character lists (`String.prototype.includes`). -/
def hasSubChars (needle : List Char) : List Char → Bool
  | [] => startsWithChars needle []
  | c :: rest => startsWithChars needle (c :: rest) || hasSubChars needle rest

/-- `key.includes('id')`. -/
def keyHasId (k : String) : Bool := hasSubChars "id".data k.data

/-- Boolean-field tally bump (`{ true: n, false: m }`). -/
def bumpBool : List (String × ℕ × ℕ) → String → Bool → List (String × ℕ × ℕ)
  | [], k, b => [(k, if b then (1, 0) else (0, 1))]
  | (k', t, f) :: rest, k, b =>
      if k' = k then (k', if b then (t + 1, f) else (t, f + 1)) :: rest
      else (k', t, f) :: bumpBool rest k b

/-- Numeric-field value push (`if (!acc[k]) acc[k] = []; acc[k].push(v)`). -/
def pushNum : List (String × List ℚ) → String → ℚ → List (String × List ℚ)
  | [], k, q => [(k, [q])]
  | (k', l) :: rest, k, q =>
      if k' = k then (k', l ++ [q]) :: rest else (k', l) :: pushNum rest k q

/-- One entry of one pretest response: booleans are tallied, numbers whose
key does not contain `id` are collected. -/
def pretestEntryStep (acc : List (String × ℕ × ℕ) × List (String × List ℚ))
    (kv : String × JsVal) : List (String × ℕ × ℕ) × List (String × List ℚ) :=
  match kv.2 with
  | .vBool b => (bumpBool acc.1 kv.1 b, acc.2)
  | .vNum q => if keyHasId kv.1 then acc else (acc.1, pushNum acc.2 kv.1 q)
  | _ => acc

/-- The `pretestAnalysis` reduce: boolean tallies and raw numeric values. -/
def pretestAccum (responses : List JsRecord) :
    List (String × ℕ × ℕ) × List (String × List ℚ) :=
  responses.foldl (fun acc r => r.foldl pretestEntryStep acc) ([], [])

/-- Descriptive statistics computed for one numeric pretest field. -/
structure NumStats where
  values : List ℚ
  statMean : ℚ
  statMedian : ℚ
  statSd : ℚ
  statMin : ℚ
  statMax : ℚ
deriving DecidableEq

/-- `Math.min(...values)`; the analyzer only applies it to non-empty
lists (the `0` branch is unreachable, see `pretestValues_ne_nil`). -/
def listMin : List ℚ → ℚ
  | [] => 0
  | h :: t => t.foldl min h

/-- `Math.max(...values)`; only applied to non-empty lists. -/
def listMax : List ℚ → ℚ
  | [] => 0
  | h :: t => t.foldl max h

/-- `Math.min(...values)` with the empty case tracked (`Infinity`). -/
def listMin? : List ℚ → Option ℚ
  | [] => none
  | h :: t => some (t.foldl min h)

/-- `Math.max(...values)` with the empty case tracked (`-Infinity`). -/
def listMax? : List ℚ → Option ℚ
  | [] => none
  | h :: t => some (t.foldl max h)

/-- Statistics block of a numeric pretest field. -/
def numStatsOf (values : List ℚ) : NumStats :=
  ⟨values, mean values, median values, standardDeviation values,
    listMin values, listMax values⟩

/-- `numStatsOf`, with every division/root/spread site tracked. -/
def numStatsOf? (values : List ℚ) : Option NumStats := do
  let m ← mean? values
  let md ← median? values
  let sd ← standardDeviation? values
  let mn ← listMin? values
  let mx ← listMax? values
  pure ⟨values, m, md, sd, mn, mx⟩

/-- The per-field statistics pass over the collected numeric values. -/
def pretestNumericStats (numAcc : List (String × List ℚ)) :
    List (String × NumStats) :=
  numAcc.map fun kv => (kv.1, numStatsOf kv.2)

/-- `pretestNumericStats`, with all tracked sites. -/
def pretestNumericStats? : List (String × List ℚ) → Option (List (String × NumStats))
  | [] => some []
  | kv :: t => do
      let st ← numStatsOf? kv.2
      let rest ← pretestNumericStats? t
      pure ((kv.1, st) :: rest)

theorem numStatsOf?_eq {values : List ℚ} (h : values ≠ []) :
    numStatsOf? values = some (numStatsOf values) := by
  match values, h with
  | v :: t, _ =>
    simp [numStatsOf?, numStatsOf, mean?_eq, median?_eq, standardDeviation?_eq,
      listMin?, listMax?, listMin, listMax]

theorem pushNum_ne_nil {acc : List (String × List ℚ)}
    (h : ∀ kv ∈ acc, kv.2 ≠ []) (k : String) (q : ℚ) :
    ∀ kv ∈ pushNum acc k q, kv.2 ≠ [] := by
  induction acc with
  | nil =>
    intro kv hkv
    simp only [pushNum, List.mem_singleton] at hkv
    subst hkv
    simp
  | cons hd t ih =>
    obtain ⟨k', l⟩ := hd
    intro kv hkv
    by_cases hk : k' = k
    · simp only [pushNum, hk, if_true, List.mem_cons] at hkv
      rcases hkv with rfl | hkv
      · simp
      · exact h kv (by simp [hkv])
    · simp only [pushNum, hk, if_false, List.mem_cons] at hkv
      rcases hkv with rfl | hkv
      · exact h (k', l) (by simp)
      · exact ih (fun x hx => h x (by simp [hx])) kv hkv

theorem pretestEntryStep_ne_nil
    {acc : List (String × ℕ × ℕ) × List (String × List ℚ)}
    (h : ∀ kv ∈ acc.2, kv.2 ≠ []) (e : String × JsVal) :
    ∀ kv ∈ (pretestEntryStep acc e).2, kv.2 ≠ [] := by
  unfold pretestEntryStep
  rcases e with ⟨k, v⟩
  cases v with
  | vBool b => exact h
  | vNum q =>
    by_cases hid : keyHasId k
    · simp only [hid, if_true]
      exact h
    · simp only [hid, Bool.false_eq_true, if_false]
      exact pushNum_ne_nil h k q
  | vNull => exact h
  | vStr s => exact h

/-- Every numeric pretest field holds at least one value: each entry of the
accumulator is created with its first pushed value. -/
theorem pretestValues_ne_nil (responses : List JsRecord) :
    ∀ kv ∈ (pretestAccum responses).2, kv.2 ≠ [] := by
  rw [pretestAccum]
  have main : ∀ (rs : List JsRecord)
      (acc : List (String × ℕ × ℕ) × List (String × List ℚ)),
      (∀ kv ∈ acc.2, kv.2 ≠ []) →
      ∀ kv ∈ (rs.foldl (fun acc r => r.foldl pretestEntryStep acc) acc).2, kv.2 ≠ [] := by
    intro rs
    induction rs with
    | nil => intro acc h; exact h
    | cons r t ih =>
      intro acc h
      rw [List.foldl_cons]
      refine ih _ ?_
      clear ih
      induction r generalizing acc with
      | nil => exact h
      | cons e es ihe =>
        rw [List.foldl_cons]
        exact ihe _ (pretestEntryStep_ne_nil h e)
  exact main responses ([], []) (by simp)

theorem pretestNumericStats?_eq {numAcc : List (String × List ℚ)}
    (h : ∀ kv ∈ numAcc, kv.2 ≠ []) :
    pretestNumericStats? numAcc = some (pretestNumericStats numAcc) := by
  induction numAcc with
  | nil => rfl
  | cons kv t ih =>
    have h1 : kv.2 ≠ [] := h kv (by simp)
    have h2 : ∀ x ∈ t, x.2 ≠ [] := fun x hx => h x (by simp [hx])
    simp [pretestNumericStats?, pretestNumericStats, numStatsOf?_eq h1, ih h2]

-- Usage patterns and the correlations block.

/-- Generic insert-or-increment on a counting object. -/
def bumpK {κ : Type} [DecidableEq κ] : List (κ × ℕ) → κ → List (κ × ℕ)
  | [], k => [(k, 1)]
  | (k', c) :: rest, k =>
      if k' = k then (k', c + 1) :: rest else (k', c) :: bumpK rest k

/-- Per-participant engagement summary. -/
structure Engagement where
  sessions : ℕ
  totalDuration : ℚ
  lastActivity : Option ℤ
deriving DecidableEq

/-- `if (!last || activityDate > last) last = activityDate`. -/
def maxActivity (old : Option ℤ) (t : Option ℤ) : Option ℤ :=
  match t with
  | none => old
  | some x =>
      match old with
      | none => some x
      | some o => if o < x then some x else some o

/-- Insert-or-update of the engagement object for one session
(`totalDuration += (duration_minutes || 0)`). -/
def engUpdate : List (String × Engagement) → String → Session →
    List (String × Engagement)
  | [], p, s => [(p, ⟨1, s.duration_minutes.getD 0, maxActivity none s.created_at⟩)]
  | (q, e) :: rest, p, s =>
      if q = p then
        (q, ⟨e.sessions + 1, e.totalDuration + s.duration_minutes.getD 0,
          maxActivity e.lastActivity s.created_at⟩) :: rest
      else (q, e) :: engUpdate rest p s

/-- One step of the `usagePatterns` fold: hour/day histograms for dated
sessions, engagement for sessions with a truthy participant number. -/
def usageStep
    (acc : List (ℤ × ℕ) × List (ℤ × ℕ) × List (String × Engagement))
    (s : Session) :
    List (ℤ × ℕ) × List (ℤ × ℕ) × List (String × Engagement) :=
  let acc1 :=
    match s.created_at with
    | some t => (bumpK acc.1 (utcHour t), bumpK acc.2.1 (dayOfWeek t), acc.2.2)
    | none => acc
  match s.participant_number with
  | some p => if p ≠ "" then (acc1.1, acc1.2.1, engUpdate acc1.2.2 p s) else acc1
  | none => acc1

/-- `usagePatterns`: hourly distribution, daily distribution, and
per-participant engagement. -/
def usagePatterns (sessions : List Session) :
    List (ℤ × ℕ) × List (ℤ × ℕ) × List (String × Engagement) :=
  sessions.foldl usageStep ([], [], [])

/-- `.map(s => s.participant_number).filter(Boolean)`. -/
def participantsOf (sessions : List Session) : List String :=
  sessions.filterMap fun s =>
    match s.participant_number with
    | some p => if p ≠ "" then some p else none
    | none => none

/-- `new Set(...).size` over the truthy participant numbers. -/
def uniqueParticipants (sessions : List Session) : ℕ :=
  (participantsOf sessions).dedup.length

/-- Correlation strength classification. -/
inductive Strength | strong | moderate | weak
deriving DecidableEq

/-- `|c| > 0.7` → strong, `|c| > 0.3` → moderate, else weak. -/
def strengthOf (c : ℚ) : Strength :=
  if (0.7 : ℚ) < |c| then .strong
  else if (0.3 : ℚ) < |c| then .moderate
  else .weak

/-- The `correlations.sessionsVsDuration` block: only computed when more
than five session records exist. -/
def correlationsResult (sessions : List Session) : Option (ℚ × Strength) :=
  if 5 < sessions.length then
    let pdat := participantData sessions
    let sessionCounts := pdat.map fun p => ((p.2.sessions : ℚ))
    let avgDurations := pdat.map fun p => p.2.avgDuration
    let c := correlation sessionCounts avgDurations
    some (c, strengthOf c)
  else none

/-- `correlationsResult`, with the division sites of the participant fold
and of `correlation` tracked. -/
def correlationsResult? (sessions : List Session) : Option (Option (ℚ × Strength)) :=
  if 5 < sessions.length then do
    let pdat ← participantData? sessions
    let sessionCounts := pdat.map fun p => ((p.2.sessions : ℚ))
    let avgDurations := pdat.map fun p => p.2.avgDuration
    let c ← correlation? sessionCounts avgDurations
    pure (some (c, strengthOf c))
  else pure none

theorem correlationsResult?_eq (sessions : List Session) :
    correlationsResult? sessions = some (correlationsResult sessions) := by
  by_cases h : 5 < sessions.length
  · simp [correlationsResult?, correlationsResult, h, participantData?_eq,
      correlation?_eq]
  · simp [correlationsResult?, correlationsResult, h]

-- The insight engine.

/-- Insight type tag. -/
inductive IType | positive | warning | info
deriving DecidableEq

/-- Insight impact tier. -/
inductive Impact | high | medium | low
deriving DecidableEq

/-- An emitted insight.  The human-readable `title`/`description` strings
are presentation text with interpolated number formatting and are not
modelled; `category` identifies each rule. -/
structure Insight where
  itype : IType
  category : String
  impact : Impact
  metric : ℚ
deriving DecidableEq

/-- `impactOrder = { high: 3, medium: 2, low: 1 }`. -/
def impactOrder : Impact → ℕ
  | .high => 3
  | .medium => 2
  | .low => 1

/-- The sort comparator `(a, b) => impactOrder[b.impact] − impactOrder[a.impact]`:
`a` stays before `b` exactly when the difference is `≤ 0`. -/
def insLe (a b : Insight) : Bool := decide (impactOrder b.impact ≤ impactOrder a.impact)

/-- The insight list in generation order (before the final sort), as a
function of the analytics values the rules inspect; `spp`, `weeklyAvg` and
`monthlyAvg` are the three averages computed inside `generateInsights`. -/
def insightsRaw (saMean saSd slope : ℚ) (dir : TrendDir)
    (chCount chMean pChange : ℚ) (prevCount : ℕ) (corr : Option (ℚ × Strength))
    (range : DateRange) (spp weeklyAvg monthlyAvg : ℚ) : List Insight :=
  (if 0 < saMean then
    (if 30 < saMean then [⟨.positive, "engagement", .high, saMean⟩]
     else if saMean < 10 then [⟨.warning, "engagement", .medium, saMean⟩]
     else [])
   else []) ++
  (match dir with
   | .increasing => [⟨.positive, "growth", .high, slope⟩]
   | .decreasing => [⟨.warning, "retention", .high, slope⟩]
   | .stable => []) ++
  (if saMean * (0.8 : ℚ) < saSd then [⟨.info, "behavior", .medium, saSd⟩] else []) ++
  (if 5 < spp then [⟨.positive, "retention", .high, spp⟩] else []) ++
  (if range ≠ .all ∧ 0 < prevCount then
    (if 20 < |chCount| then
      [⟨if 0 < chCount then .positive else .warning, "growth", .high, chCount⟩]
     else []) ++
    (if 15 < |chMean| then
      [⟨if 0 < chMean then .positive else .warning, "engagement", .medium, chMean⟩]
     else [])
   else []) ++
  (if range = .d30 ∧ 10 < weeklyAvg then
    [⟨.positive, "activity", .high, weeklyAvg⟩]
   else []) ++
  (if range = .d90 then
    (if 10 < pChange then [⟨.positive, "growth", .high, pChange⟩] else []) ++
    (if 30 < monthlyAvg then [⟨.positive, "volume", .medium, monthlyAvg⟩] else [])
   else []) ++
  (match corr with
   | some (c, Strength.strong) => [⟨.info, "correlation", .medium, c⟩]
   | _ => [])

/-- `generateInsights`: generate, then sort descending by impact (JS
`Array.prototype.sort` is stable, modelled by `mergeSort`). -/
def generateInsights (saMean saSd slope : ℚ) (dir : TrendDir)
    (chCount chMean pChange : ℚ) (prevCount : ℕ) (corr : Option (ℚ × Strength))
    (range : DateRange) (totalSessions uniqueP : ℕ) : List Insight :=
  (insightsRaw saMean saSd slope dir chCount chMean pChange prevCount corr range
    ((totalSessions : ℚ) / ((max uniqueP 1 : ℕ) : ℚ))
    ((totalSessions : ℚ) / (4.3 : ℚ))
    ((totalSessions : ℚ) / 3)).mergeSort insLe

/-- `generateInsights`, with its three division sites tracked. -/
def generateInsights? (saMean saSd slope : ℚ) (dir : TrendDir)
    (chCount chMean pChange : ℚ) (prevCount : ℕ) (corr : Option (ℚ × Strength))
    (range : DateRange) (totalSessions uniqueP : ℕ) : Option (List Insight) := do
  let spp ← jdiv (totalSessions : ℚ) ((max uniqueP 1 : ℕ) : ℚ)
  let wk ← jdiv (totalSessions : ℚ) (4.3 : ℚ)
  let mo ← jdiv (totalSessions : ℚ) 3
  pure ((insightsRaw saMean saSd slope dir chCount chMean pChange prevCount corr
    range spp wk mo).mergeSort insLe)

theorem generateInsights?_eq (saMean saSd slope : ℚ) (dir : TrendDir)
    (chCount chMean pChange : ℚ) (prevCount : ℕ) (corr : Option (ℚ × Strength))
    (range : DateRange) (totalSessions uniqueP : ℕ) :
    generateInsights? saMean saSd slope dir chCount chMean pChange prevCount corr
      range totalSessions uniqueP =
    some (generateInsights saMean saSd slope dir chCount chMean pChange prevCount
      corr range totalSessions uniqueP) := by
  have h1 : ((uniqueP : ℚ) ⊔ 1) ≠ 0 :=
    ne_of_gt (lt_sup_iff.mpr (Or.inr one_pos))
  have h2 : ((4.3 : ℚ)) ≠ 0 := by norm_num
  have h3 : ((3 : ℚ)) ≠ 0 := by norm_num
  simp [generateInsights?, generateInsights, jdiv_of_ne _ h1, jdiv_of_ne _ h2,
    jdiv_of_ne _ h3]

theorem insLe_trans (a b c : Insight) : insLe a b → insLe b c → insLe a c := by
  simp only [insLe, decide_eq_true_eq]
  omega

theorem insLe_total (a b : Insight) : insLe a b || insLe b a := by
  simp only [insLe]
  rcases Nat.le_total (impactOrder b.impact) (impactOrder a.impact) with h | h <;>
    simp [h]

theorem insights_filter_stable (l : List Insight) (v : Impact) :
    (l.mergeSort insLe).filter (fun i => decide (i.impact = v)) =
      l.filter (fun i => decide (i.impact = v)) := by
  have hpair : (l.filter (fun i => decide (i.impact = v))).Pairwise
      (fun a b => insLe a b) := by
    apply List.pairwise_of_forall_mem_list
    intro a ha b hb
    have ha' := (List.mem_filter.mp ha).2
    have hb' := (List.mem_filter.mp hb).2
    simp only [decide_eq_true_eq] at ha' hb'
    simp [insLe, ha', hb']
  have h3 := List.sublist_mergeSort insLe_trans insLe_total hpair
    (List.filter_sublist l)
  have h4 : (l.filter (fun i => decide (i.impact = v))).filter
      (fun i => decide (i.impact = v)) = l.filter (fun i => decide (i.impact = v)) := by
    simp [List.filter_filter]
  have h5 : List.Sublist (l.filter (fun i => decide (i.impact = v)))
      ((l.mergeSort insLe).filter (fun i => decide (i.impact = v))) :=
    h4 ▸ h3.filter (fun i => decide (i.impact = v))
  have h6 : ((l.mergeSort insLe).filter (fun i => decide (i.impact = v))).length =
      (l.filter (fun i => decide (i.impact = v))).length :=
    ((List.mergeSort_perm l insLe).filter (fun i => decide (i.impact = v))).length_eq
  exact (h5.eq_of_length h6.symm).symm

theorem insightsRaw_impact (saMean saSd slope : ℚ) (dir : TrendDir)
    (chCount chMean pChange : ℚ) (prevCount : ℕ) (corr : Option (ℚ × Strength))
    (range : DateRange) (spp weeklyAvg monthlyAvg : ℚ) :
    ∀ i ∈ insightsRaw saMean saSd slope dir chCount chMean pChange prevCount corr
      range spp weeklyAvg monthlyAvg,
      i.impact = Impact.high ∨ i.impact = Impact.medium := by
  intro i hi
  unfold insightsRaw at hi
  simp only [List.mem_append] at hi
  rcases hi with (((((((hi | hi) | hi) | hi) | hi) | hi) | hi) | hi) <;>
    (repeat' (split at hi)) <;>
    (first
      | (exfalso; revert hi; simp; done)
      | (simp only [List.mem_append, List.mem_singleton, List.not_mem_nil,
          or_false, false_or] at hi
         rcases hi with rfl | rfl <;> simp))

-- The assembled analytics snapshot.

/-- The numeric/structured content of the analytics snapshot returned by
the hook: session-duration statistics with previous-period block, the
time-series buckets and trend, period comparison, demographic
distribution, pretest analysis, correlations, usage patterns, insights,
and the summary (the `comparisonMetrics`/`averageSessionDuration` summary
fields are copies of fields already present here). -/
structure Snapshot where
  saCount : ℕ
  saMean : ℚ
  saMedian : ℚ
  saSd : ℚ
  saMin : ℚ
  saMax : ℚ
  saP25 : ℚ
  saP75 : ℚ
  saP90 : ℚ
  saP95 : ℚ
  prevCount : ℕ
  prevMean : ℚ
  prevMedian : ℚ
  chCount : ℚ
  chMean : ℚ
  timeSeries : List (PeriodKey × ℕ)
  slope : ℚ
  direction : TrendDir
  pcParticipantsCurrent : ℕ
  pcParticipantsPrevious : ℕ
  pChange : ℚ
  demographics : List (String × List (String × ℕ))
  boolFields : List (String × ℕ × ℕ)
  numFields : List (String × NumStats)
  correlations : Option (ℚ × Strength)
  hourly : List (ℤ × ℕ)
  daily : List (ℤ × ℕ)
  engagement : List (String × Engagement)
  insights : List Insight
  totalSessions : ℕ
  totalParticipants : ℕ
  totalResponses : ℕ
  totalDemographics : ℕ
  dqCompleteness : ℚ
  dqResponseRate : ℚ
deriving DecidableEq

/-- The generation-order insight list of a snapshot (the list built by
`generateInsights` before its final sort); it depends only on the session
array, the range label and `now`. -/
def insightsRawOf (sessions : List Session) (range : DateRange) (now : ℤ) :
    List Insight :=
  let previous := getPreviousPeriodData sessions now (periodDays range)
  let durs := sessionDurations sessions
  let prevDurs := sessionDurations previous
  let ts := timeSeriesData
    (getTimeSeriesGrouping (match periodDays range with | none => 365 | some d => d))
    sessions
  let trend := calculateTrend ts
  let pCur := uniqueParticipants sessions
  let pPrev := uniqueParticipants previous
  let pChange :=
    if pPrev = 0 then 0 else ((pCur : ℚ) - (pPrev : ℚ)) / (pPrev : ℚ) * 100
  insightsRaw (mean durs) (standardDeviation durs) trend.1 trend.2
    (changeCount durs prevDurs) (changeMean durs prevDurs) pChange prevDurs.length
    (correlationsResult sessions) range
    ((sessions.length : ℚ) / ((max pCur 1 : ℕ) : ℚ))
    ((sessions.length : ℚ) / (4.3 : ℚ))
    ((sessions.length : ℚ) / 3)

/-- The full analytics computation: a pure function of the three input
arrays, the range label, and the reference time `now`. -/
def computeAnalytics (sessions : List Session) (pretest demos : List JsRecord)
    (range : DateRange) (now : ℤ) : Snapshot :=
  let days := periodDays range
  let previous := getPreviousPeriodData sessions now days
  let durs := sessionDurations sessions
  let prevDurs := sessionDurations previous
  let grouping := getTimeSeriesGrouping (match days with | none => 365 | some d => d)
  let ts := timeSeriesData grouping sessions
  let trend := calculateTrend ts
  let pCur := uniqueParticipants sessions
  let pPrev := uniqueParticipants previous
  let pChange :=
    if pPrev = 0 then 0 else ((pCur : ℚ) - (pPrev : ℚ)) / (pPrev : ℚ) * 100
  let pa := pretestAccum pretest
  let up := usagePatterns sessions
  { saCount := durs.length
    saMean := mean durs
    saMedian := median durs
    saSd := standardDeviation durs
    saMin := if durs = [] then 0 else listMin durs
    saMax := if durs = [] then 0 else listMax durs
    saP25 := percentile durs 25
    saP75 := percentile durs 75
    saP90 := percentile durs 90
    saP95 := percentile durs 95
    prevCount := prevDurs.length
    prevMean := mean prevDurs
    prevMedian := median prevDurs
    chCount := changeCount durs prevDurs
    chMean := changeMean durs prevDurs
    timeSeries := ts
    slope := trend.1
    direction := trend.2
    pcParticipantsCurrent := pCur
    pcParticipantsPrevious := pPrev
    pChange := pChange
    demographics := demographicDistribution demos
    boolFields := pa.1
    numFields := pretestNumericStats pa.2
    correlations := correlationsResult sessions
    hourly := up.1
    daily := up.2.1
    engagement := up.2.2
    insights := generateInsights (mean durs) (standardDeviation durs) trend.1
      trend.2 (changeCount durs prevDurs) (changeMean durs prevDurs) pChange
      prevDurs.length (correlationsResult sessions) range sessions.length pCur
    totalSessions := sessions.length
    totalParticipants := pCur
    totalResponses := pretest.length
    totalDemographics := demos.length
    dqCompleteness := (durs.length : ℚ) / ((max sessions.length 1 : ℕ) : ℚ)
    dqResponseRate := (pretest.length : ℚ) / ((max pCur 1 : ℕ) : ℚ) }

/-- The tracked descriptive statistics of a duration list. -/
structure DurStats where
  dMean : ℚ
  dMedian : ℚ
  dSd : ℚ
  dP25 : ℚ
  dP75 : ℚ
  dP90 : ℚ
  dP95 : ℚ
deriving DecidableEq

/-- Descriptive statistics of the duration list, with every division and
square-root site tracked. -/
def durStats? (durs : List ℚ) : Option DurStats := do
  let m ← mean? durs
  let md ← median? durs
  let sd ← standardDeviation? durs
  let p25 ← percentile? durs 25
  let p75 ← percentile? durs 75
  let p90 ← percentile? durs 90
  let p95 ← percentile? durs 95
  pure ⟨m, md, sd, p25, p75, p90, p95⟩

theorem durStats?_eq (durs : List ℚ) :
    durStats? durs = some ⟨mean durs, median durs, standardDeviation durs,
      percentile durs 25, percentile durs 75, percentile durs 90,
      percentile durs 95⟩ := by
  simp [durStats?, mean?_eq, median?_eq, standardDeviation?_eq, percentile?_eq]

/-- The tracked previous-period block (mean, median, and the two
percentage changes). -/
structure PrevBlock where
  pMean : ℚ
  pMedian : ℚ
  pChCount : ℚ
  pChMean : ℚ
deriving DecidableEq

/-- The previous-period block, with every division site tracked. -/
def prevBlock? (durs prevDurs : List ℚ) : Option PrevBlock := do
  let prevMean ← mean? prevDurs
  let prevMedian ← median? prevDurs
  let chCount ← changeCount? durs prevDurs
  let chMean ← changeMean? durs prevDurs
  pure ⟨prevMean, prevMedian, chCount, chMean⟩

theorem prevBlock?_eq (durs : List ℚ) {prevDurs : List ℚ}
    (hpos : ∀ d ∈ prevDurs, 0 < d) :
    prevBlock? durs prevDurs = some ⟨mean prevDurs, median prevDurs,
      changeCount durs prevDurs, changeMean durs prevDurs⟩ := by
  simp [prevBlock?, mean?_eq, median?_eq, changeCount?_eq, changeMean?_eq _ hpos]

/-- `periodComparison.participants.change`, with its division site
tracked (`previous ? (current − previous)/previous * 100 : 0`). -/
def participantsChange? (pCur pPrev : ℕ) : Option ℚ :=
  if pPrev = 0 then some 0
  else (jdiv ((pCur : ℚ) - (pPrev : ℚ)) (pPrev : ℚ)).map (· * 100)

theorem participantsChange?_eq (pCur pPrev : ℕ) :
    participantsChange? pCur pPrev =
      some (if pPrev = 0 then 0
        else ((pCur : ℚ) - (pPrev : ℚ)) / (pPrev : ℚ) * 100) := by
  by_cases hp : pPrev = 0
  · simp [participantsChange?, hp]
  · have hpq : ((pPrev : ℚ)) ≠ 0 := Nat.cast_ne_zero.mpr hp
    simp [participantsChange?, hp, jdiv_of_ne _ hpq]

/-- The full analytics computation with every division and square-root
site tracked: it returns `none` exactly if any such site would produce
`NaN`/`Infinity` in JavaScript. -/
def computeAnalytics? (sessions : List Session) (pretest demos : List JsRecord)
    (range : DateRange) (now : ℤ) : Option Snapshot := do
  let days := periodDays range
  let previous := getPreviousPeriodData sessions now days
  let durs := sessionDurations sessions
  let prevDurs := sessionDurations previous
  let ds ← durStats? durs
  let pb ← prevBlock? durs prevDurs
  let grouping := getTimeSeriesGrouping (match days with | none => 365 | some d => d)
  let ts := timeSeriesData grouping sessions
  let trend ← calculateTrend? ts
  let pCur := uniqueParticipants sessions
  let pPrev := uniqueParticipants previous
  let pChange ← participantsChange? pCur pPrev
  let pa := pretestAccum pretest
  let numFields ← pretestNumericStats? pa.2
  let corr ← correlationsResult? sessions
  let up := usagePatterns sessions
  let insights ← generateInsights? ds.dMean ds.dSd trend.1 trend.2 pb.pChCount
    pb.pChMean pChange prevDurs.length corr range sessions.length pCur
  let dq1 ← jdiv (durs.length : ℚ) ((max sessions.length 1 : ℕ) : ℚ)
  let dq2 ← jdiv (pretest.length : ℚ) ((max pCur 1 : ℕ) : ℚ)
  pure
    { saCount := durs.length
      saMean := ds.dMean
      saMedian := ds.dMedian
      saSd := ds.dSd
      saMin := if durs = [] then 0 else listMin durs
      saMax := if durs = [] then 0 else listMax durs
      saP25 := ds.dP25
      saP75 := ds.dP75
      saP90 := ds.dP90
      saP95 := ds.dP95
      prevCount := prevDurs.length
      prevMean := pb.pMean
      prevMedian := pb.pMedian
      chCount := pb.pChCount
      chMean := pb.pChMean
      timeSeries := ts
      slope := trend.1
      direction := trend.2
      pcParticipantsCurrent := pCur
      pcParticipantsPrevious := pPrev
      pChange := pChange
      demographics := demographicDistribution demos
      boolFields := pa.1
      numFields := numFields
      correlations := corr
      hourly := up.1
      daily := up.2.1
      engagement := up.2.2
      insights := insights
      totalSessions := sessions.length
      totalParticipants := pCur
      totalResponses := pretest.length
      totalDemographics := demos.length
      dqCompleteness := dq1
      dqResponseRate := dq2 }

theorem option_bind_some_eq {α β : Type} (a : α) (f : α → Option β) :
    (bind (some a) f : Option β) = f a := rfl

theorem option_pure_eq {α : Type} (a : α) : (pure a : Option α) = some a := rfl

/-- **C1.** For every input (any session/pretest/demographics arrays, any
of the five range labels, any reference time), the tracked analytics
computation returns `some` of the plain snapshot: no division or square
root ever sees a bad operand, so every numeric field — in particular
`sessionTrend.slope`, the previous-period percentage changes, the
data-quality ratios, and all descriptive statistics — is a finite
rational, never `NaN`/`Infinity`. -/
theorem analytics_no_nan (sessions : List Session) (pretest demos : List JsRecord)
    (range : DateRange) (now : ℤ) :
    computeAnalytics? sessions pretest demos range now =
      some (computeAnalytics sessions pretest demos range now) := by
  have hdq1 : (((max sessions.length 1 : ℕ)) : ℚ) ≠ 0 :=
    Nat.cast_ne_zero.mpr (by omega)
  have hdq2 : (((max (uniqueParticipants sessions) 1 : ℕ)) : ℚ) ≠ 0 :=
    Nat.cast_ne_zero.mpr (by omega)
  unfold computeAnalytics? computeAnalytics
  simp only [durStats?_eq,
    prevBlock?_eq _ (sessionDurations_pos _),
    calculateTrend?_eq,
    participantsChange?_eq,
    pretestNumericStats?_eq (pretestValues_ne_nil pretest),
    correlationsResult?_eq, generateInsights?_eq,
    jdiv_of_ne _ hdq1, jdiv_of_ne _ hdq2,
    option_bind_some_eq, option_pure_eq, Option.some_bind]

/-- **C2.** The analytics computation is a pure function of the three
input arrays, the range label, and the explicit reference time: two
invocations with identical inputs and the same `now` produce structurally
identical snapshots (there is no other state for the embedding of the
hook to depend on). -/
theorem analytics_deterministic (sessions : List Session)
    (pretest demos : List JsRecord) (range : DateRange) (now now' : ℤ)
    (h : now = now') :
    computeAnalytics sessions pretest demos range now =
      computeAnalytics sessions pretest demos range now' := by
  rw [h]

/-- Witness for C2 at a concrete input. -/
theorem analytics_deterministic_witness :
    computeAnalytics [] [] [] .all 0 = computeAnalytics [] [] [] .all 0 :=
  analytics_deterministic [] [] [] .all 0 0 rfl
theorem snapshot_insights_eq (sessions : List Session)
    (pretest demos : List JsRecord) (range : DateRange) (now : ℤ) :
    (computeAnalytics sessions pretest demos range now).insights =
      (insightsRawOf sessions range now).mergeSort insLe := rfl

/-- **C7.** The insight list of every snapshot is sorted descending by
impact (no lower-impact insight ever precedes a higher-impact one), ties
keep their relative generation order (for each impact tier, filtering the
output equals filtering the generation-order list), and the empty list is
a valid output (e.g. on empty inputs). -/
theorem insights_sorted_and_stable (sessions : List Session)
    (pretest demos : List JsRecord) (range : DateRange) (now : ℤ) :
    (computeAnalytics sessions pretest demos range now).insights.Pairwise
      (fun a b => impactOrder b.impact ≤ impactOrder a.impact) ∧
    (∀ v : Impact,
      (computeAnalytics sessions pretest demos range now).insights.filter
        (fun i => decide (i.impact = v)) =
      (insightsRawOf sessions range now).filter (fun i => decide (i.impact = v))) ∧
    (computeAnalytics [] [] [] .all 0).insights = [] := by
  refine ⟨?_, ?_, ?_⟩
  · rw [snapshot_insights_eq]
    have h := List.sorted_mergeSort insLe_trans insLe_total
      (insightsRawOf sessions range now)
    exact h.imp fun hab => by simpa [insLe] using hab
  · intro v
    rw [snapshot_insights_eq]
    exact insights_filter_stable _ v
  · rw [snapshot_insights_eq]
    norm_num [insightsRawOf, insightsRaw, mean, standardDeviation, sessionDurations,
      getPreviousPeriodData, periodDays, timeSeriesData, sessionsByPeriod,
      calculateTrend, changeCount, changeMean, uniqueParticipants, participantsOf,
      correlationsResult, dirOfSlope, List.mergeSort]

/-- **C10.** Every rule of the insight engine emits impact `high` or
`medium`: no snapshot ever contains a `low`-impact insight, so the `low`
tier of the sort order is unreachable. -/
theorem insights_impact_level (sessions : List Session)
    (pretest demos : List JsRecord) (range : DateRange) (now : ℤ) :
    ∀ i ∈ (computeAnalytics sessions pretest demos range now).insights,
      i.impact = Impact.high ∨ i.impact = Impact.medium := by
  intro i hi
  rw [snapshot_insights_eq] at hi
  have hmem : i ∈ insightsRawOf sessions range now := List.mem_mergeSort.mp hi
  rw [insightsRawOf] at hmem
  exact insightsRaw_impact _ _ _ _ _ _ _ _ _ _ _ _ _ i hmem

/-- Witness for C10: a single 40-minute session produces the
high-engagement insight, whose impact is indeed `high`. -/
theorem insights_impact_level_witness :
    (⟨IType.positive, "engagement", Impact.high, 40⟩ : Insight).impact = Impact.high ∨
    (⟨IType.positive, "engagement", Impact.high, 40⟩ : Insight).impact = Impact.medium :=
  insights_impact_level [⟨some "A", some 40, none⟩] [] [] .all 0 _
    (by
      rw [snapshot_insights_eq]
      have hd : sessionDurations [⟨some "A", some 40, none⟩] = [40] := by decide
      have hm : mean [(40 : ℚ)] = 40 := by norm_num [mean]
      have hsd : standardDeviation [(40 : ℚ)] = 0 := by
        norm_num [standardDeviation, mean, rat_sqrt_zero]
      have hts : timeSeriesData (getTimeSeriesGrouping 365)
          [⟨some "A", some 40, none⟩] = [] := by
        simp [timeSeriesData, sessionsByPeriod]
      have hd0 : sessionDurations [] = [] := rfl
      norm_num [insightsRawOf, insightsRaw, hd, hd0, hm, hsd, hts, periodDays,
        getPreviousPeriodData, calculateTrend, changeCount,
        changeMean, uniqueParticipants, participantsOf, correlationsResult,
        List.mergeSort_singleton])

-- Cohort retention (the statistical-charts derivation).

/-- `participantFirstSession` update: keep the earliest timestamp
(`if (!pfs[p] || d < pfs[p]) pfs[p] = d`). -/
def pfsUpdate : List (String × ℤ) → String → ℤ → List (String × ℤ)
  | [], p, t => [(p, t)]
  | (q, d) :: rest, p, t =>
      if q = p then (q, if t < d then t else d) :: rest
      else (q, d) :: pfsUpdate rest p t

/-- One step of the first-session fold (sessions need a truthy participant
number and a `created_at`). -/
def pfsStep (acc : List (String × ℤ)) (s : Session) : List (String × ℤ) :=
  match s.participant_number, s.created_at with
  | some p, some t => if p ≠ "" then pfsUpdate acc p t else acc
  | _, _ => acc

/-- Earliest session timestamp per participant. -/
def participantFirstSession (sessions : List Session) : List (String × ℤ) :=
  sessions.foldl pfsStep []

/-- Cohort key: the day number of the start of the week (day-of-week 0) of
the first-session timestamp — the date part of the `toISOString` key. -/
def cohortKeyDay (t : ℤ) : ℤ := epochDay t - dayOfWeek t

/-- Append a participant to its weekly cohort. -/
def cohortAdd : List (ℤ × List String) → ℤ → String → List (ℤ × List String)
  | [], k, p => [(k, [p])]
  | (k', l) :: rest, k, p =>
      if k' = k then (k', l ++ [p]) :: rest else (k', l) :: cohortAdd rest k p

/-- The weekly cohorts (participant lists keyed by cohort week). -/
def cohorts (sessions : List Session) : List (ℤ × List String) :=
  (participantFirstSession sessions).foldl
    (fun acc kv => cohortAdd acc (cohortKeyDay kv.2) kv.1) []

/-- Boolean `≤` on `ℤ` (the ascending sort of the cohort keys; the ISO
`yyyy-mm-dd` key strings sort lexicographically exactly as their day
numbers sort numerically). -/
def intLeB (a b : ℤ) : Bool := decide (a ≤ b)

/-- `Object.keys(cohorts).sort().slice(0, 8)`: the first eight cohort keys
in ascending order (the source comment says "Last 8 weeks"). -/
def cohortLabels (sessions : List Session) : List ℤ :=
  (((cohorts sessions).map Prod.fst).mergeSort intLeB).take 8

/-- Retention curve of one cohort: week 0 is 100, and weeks 1–4 hold the
percentage of cohort participants with at least one session strictly
inside `[start + 7w days, start + 7(w+1) days)`; a null `created_at`
parses as the epoch. -/
def retentionFor (sessions : List Session) (ps : List String) (cohortDay : ℤ) :
    List ℚ :=
  100 :: ([1, 2, 3, 4].map fun w : ℕ =>
    let weekDate := cohortDay * 86400000 + (w : ℤ) * 7 * 86400000
    let active := (ps.filter fun p => sessions.any fun s =>
      decide (s.participant_number = some p) &&
      decide (weekDate ≤ s.created_at.getD 0) &&
      decide (s.created_at.getD 0 < weekDate + 7 * 24 * 60 * 60 * 1000)).length
    (active : ℚ) / (ps.length : ℚ) * 100)

/-- `cohortData`: `none` below 20 session records, else one retention
curve per label. -/
def cohortData (sessions : List Session) : Option (List (ℤ × List ℚ)) :=
  if sessions.length < 20 then none
  else some ((cohortLabels sessions).map fun k =>
    (k, retentionFor sessions ((lookupA (cohorts sessions) k).getD []) k))

/-- 21 sessions: nine participants whose first sessions fall on nine
consecutive Sundays starting 2024-09-15 (day 19981), plus twelve further
`P1` sessions meeting the 20-record threshold. -/
def cohortBugInput : List Session :=
  [⟨some "P1", some 5, some 1726358400000⟩,
   ⟨some "P2", some 5, some 1726963200000⟩,
   ⟨some "P3", some 5, some 1727568000000⟩,
   ⟨some "P4", some 5, some 1728172800000⟩,
   ⟨some "P5", some 5, some 1728777600000⟩,
   ⟨some "P6", some 5, some 1729382400000⟩,
   ⟨some "P7", some 5, some 1729987200000⟩,
   ⟨some "P8", some 5, some 1730592000000⟩,
   ⟨some "P9", some 5, some 1731196800000⟩] ++
  List.replicate 12 ⟨some "P1", some 5, some 1726358400000⟩

/-- **C5 (failing part).** With nine weekly cohorts present (and the
20-session threshold met), the produced labels are the eight *oldest*
cohorts — `slice(0, 8)` of the ascending key sort — not the eight most
recent: the newest cohort (week of day 20037) is dropped while the oldest
(day 19981) is kept. -/
theorem cohort_takes_oldest_cohorts :
    Option.map (fun L => L.map Prod.fst) (cohortData cohortBugInput) =
      some [19981, 19988, 19995, 20002, 20009, 20016, 20023, 20030] := by
  have hc : (cohorts cohortBugInput).map Prod.fst =
      [19981, 19988, 19995, 20002, 20009, 20016, 20023, 20030, 20037] := by decide
  have hsorted : List.Pairwise (fun a b => intLeB a b)
      [(19981 : ℤ), 19988, 19995, 20002, 20009, 20016, 20023, 20030, 20037] := by
    decide
  have hlabels : cohortLabels cohortBugInput =
      [19981, 19988, 19995, 20002, 20009, 20016, 20023, 20030] := by
    rw [cohortLabels, hc, List.mergeSort_of_sorted hsorted]
    decide
  rw [cohortData, if_neg (by decide)]
  simp [hlabels]
